import Mathlib

/-!
Shallow embedding of the tetris-cli engine (src/tetris.rs and src/screen.rs),
with theorems checking the natural-language specification against it.

Conventions: `u16`/`u32`/`usize` board coordinates and counters are modelled as
`Nat` (the source panics on under/overflow in the cases our theorems touch, and
no theorem depends on wrap-around); `i16` cell offsets are modelled as `Int`.
Board cells (`Option<u8>` in the source) are `Option Nat`.
-/

namespace TetrisCli

/-- src/tetris.rs line 8: `GAME_WIDTH`. -/
def GAME_WIDTH : Int := 10

/-- src/tetris.rs line 9: `GAME_HEIGHT`. -/
def GAME_HEIGHT : Int := 20

/-- src/tetris.rs line 14: `PLAYER_STARTING_X`. -/
def PLAYER_STARTING_X : Nat := 5

/-- src/tetris.rs line 15: `PLAYER_STARTING_Y`. -/
def PLAYER_STARTING_Y : Nat := 3

/-- screen.rs `Shape`: the four relative cell offsets plus the basic color code
of the fill pixel (the only part of `fill_pixel` the engine logic reads). -/
structure Shape where
  pixels : List (Int × Int)
  color : Nat
deriving DecidableEq

/-- src/tetris.rs lines 24-30: `shapes::SQUARE` (color `BRIGHT_YELLOW = 93`). -/
def square : Shape := ⟨[(0, 0), (1, 0), (1, 1), (0, 1)], 93⟩

/-- src/tetris.rs lines 32-38: `shapes::STRAIGHT` (color `CYAN = 36`). -/
def straight : Shape := ⟨[(0, -1), (0, 0), (0, 1), (0, 2)], 36⟩

/-- src/tetris.rs lines 40-46: `shapes::TEE` (color `MAGENTA = 35`). -/
def tee : Shape := ⟨[(0, -1), (0, 0), (-1, 0), (1, 0)], 35⟩

/-- src/tetris.rs lines 48-54: `shapes::LEFT_SKEWED` (color `GREEN = 32`). -/
def leftSkewed : Shape := ⟨[(-1, 0), (0, 0), (0, -1), (1, -1)], 32⟩

/-- src/tetris.rs lines 56-62: `shapes::RIGHT_SKEWED` (color `RED = 31`). -/
def rightSkewed : Shape := ⟨[(-1, -1), (0, 0), (0, -1), (1, 0)], 31⟩

/-- src/tetris.rs lines 64-70: `shapes::LEFT_L` (color `BLUE = 34`). -/
def leftL : Shape := ⟨[(-1, 0), (0, 0), (0, -1), (0, -2)], 34⟩

/-- src/tetris.rs lines 72-78: `shapes::RIGHT_L` (color `YELLOW = 33`). -/
def rightL : Shape := ⟨[(1, 0), (0, 0), (0, -1), (0, -2)], 33⟩

/-- src/tetris.rs lines 81-89: the `SHAPES` table. -/
def shapesList : List Shape :=
  [square, straight, tee, leftSkewed, rightSkewed, leftL, rightL]

/-- screen.rs lines 238-254, `Shape::rotate` on the offset list:
`rotate_left = true` maps `(x, y)` to `(-y, x)`, otherwise to `(y, -x)`. -/
def rotatePixels (ps : List (Int × Int)) (rotateLeft : Bool) : List (Int × Int) :=
  ps.map (fun c => if rotateLeft then (-c.2, c.1) else (c.2, -c.1))

/-- screen.rs `Shape::rotate` lifted to a `Shape` (fill pixel untouched). -/
def rotateShape (s : Shape) (rotateLeft : Bool) : Shape :=
  { s with pixels := rotatePixels s.pixels rotateLeft }

/-- screen.rs lines 256-267, `Shape::flip`: negates `x` (horizontal) or `y`. -/
def flipPixels (ps : List (Int × Int)) (horizontally : Bool) : List (Int × Int) :=
  ps.map (fun c => if horizontally then (-c.1, c.2) else (c.1, -c.2))

/-- screen.rs `Shape::flip` lifted to a `Shape`. -/
def flipShape (s : Shape) (horizontally : Bool) : Shape :=
  { s with pixels := flipPixels s.pixels horizontally }

/-- screen.rs lines 269-289, `Shape::is_within_bounds`: coordinate-only bounds
check used by the rotation branches of `Tetris::update`.  Both per-cell tests
run unconditionally (there is no early `return` in this version), and the
board contents are never consulted. -/
def shapeWithinBounds (s : Shape) (x y : Nat) : Bool × Bool :=
  s.pixels.foldl
    (fun acc c =>
      let blockX : Int := c.1 + (x : Int)
      let blockY : Int := c.2 + (y : Int)
      let wy := if blockY ≥ GAME_HEIGHT ∨ blockY ≤ 0 then false else acc.2
      let wx := if blockX > GAME_WIDTH ∨ blockX ≤ 0 then false else acc.1
      (wx, wy))
    (true, true)

/-- A board row: src/tetris.rs line 138, one `[Option<u8>; GAME_WIDTH]`. -/
abbrev Row : Type := List (Option Nat)

/-- src/tetris.rs line 163: a freshly initialised row is all `None`. -/
def emptyRow : Row := List.replicate 10 none

/-- src/tetris.rs line 163: `blocks` starts as 20 empty rows of 10 cells. -/
def emptyBoard : List Row := List.replicate 20 emptyRow

/-- src/tetris.rs lines 237-240: a row is full when `find`ing a `None` cell
fails, i.e. every cell is occupied. -/
def rowFull (r : Row) : Bool := r.all (fun c => c.isSome)

/-- The occupancy read `self.blocks[block_y as usize][(block_x - 1) as usize]`
of src/tetris.rs lines 200-201.  The result `none` models the panic taken when
either index is negative (`try_into().unwrap()`) or out of range (slice
indexing); `some cell` is the in-range read. -/
def lookupCell (blocks : List Row) (blockY blockX : Int) : Option (Option Nat) :=
  if 0 ≤ blockY ∧ blockY.toNat < blocks.length then
    let row := blocks.getD blockY.toNat []
    if 0 ≤ blockX - 1 ∧ (blockX - 1).toNat < row.length then
      some (row.getD (blockX - 1).toNat none)
    else none
  else none

/-- The cell-by-cell loop of `Tetris::is_shape_in_bounds` (src/tetris.rs lines
182-206).  Each closure `return` is a skip to the next cell: a failed `y` test
records `within_y := false` and skips the `x` test and the occupancy read; a
failed `x` test records `within_x := false` and skips the occupancy read; an
occupied target cell clears both flags.  A `none` result propagates the panic
of an out-of-range occupancy read. -/
def boundsAux (blocks : List Row) (px py : Nat) :
    List (Int × Int) → Bool × Bool → Option (Bool × Bool)
  | [], acc => some acc
  | c :: rest, acc =>
    let blockX : Int := c.1 + (px : Int)
    let blockY : Int := c.2 + (py : Int)
    if blockY ≥ GAME_HEIGHT ∨ blockY ≤ 0 then
      boundsAux blocks px py rest (acc.1, false)
    else if blockX > GAME_WIDTH ∨ blockX ≤ 0 then
      boundsAux blocks px py rest (false, acc.2)
    else
      match lookupCell blocks blockY blockX with
      | none => none
      | some cell => boundsAux blocks px py rest (if cell.isSome then (false, false) else acc)

/-- src/tetris.rs lines 177-212, `Tetris::is_shape_in_bounds` for a present
shape, with the indexing panic surfaced as `none`. -/
def isShapeInBoundsOpt (s : Shape) (px py : Nat) (blocks : List Row) :
    Option (Bool × Bool) :=
  boundsAux blocks px py s.pixels (true, true)

/-- `Tetris::is_shape_in_bounds` for a present shape on runs that do not
panic (every theorem below that uses it is on non-panicking runs). -/
def isShapeInBounds (s : Shape) (px py : Nat) (blocks : List Row) : Bool × Bool :=
  (isShapeInBoundsOpt s px py blocks).getD (false, false)

/-- src/tetris.rs `Tetris` fields that the engine logic reads and writes
(lines 121-145); the rendering surface, the wall-clock seeded RNG and the
`f32` `fall_speed` are outside the embedded state. -/
structure GameState where
  blocks : List Row
  x : Nat
  y : Nat
  fallTimer : Nat
  score : Nat
  shape : Option Shape
  held : Option Shape
  previous : Option Shape
  canHold : Bool
  running : Bool
deriving DecidableEq

/-- src/tetris.rs lines 177-212 including the `None`-shape branch
(line 210 returns `(false, false)`). -/
def stateShapeInBounds (st : GameState) : Bool × Bool :=
  match st.shape with
  | none => (false, false)
  | some s => isShapeInBounds s st.x st.y st.blocks

/-- The line-clear loop of `Tetris::fossilize_current_piece` (src/tetris.rs
lines 235-250): scan rows by index `i`; a full row is removed, an empty row is
inserted at the top, `rows_cleared` is incremented and `i` is re-examined;
otherwise `i` advances.  `fuel` bounds the iteration count of the source's
unbounded `while`; `clearFullRows` below supplies fuel that is proved
sufficient (`clearLoop_eq`), so the base case is never reached from it. -/
def clearLoop : Nat → List Row → Nat → Nat → List Row × Nat
  | 0, b, _, cleared => (b, cleared)
  | fuel + 1, b, i, cleared =>
    if h : i < b.length then
      if rowFull b[i] then
        clearLoop fuel (emptyRow :: b.eraseIdx i) i (cleared + 1)
      else
        clearLoop fuel b (i + 1) cleared
    else (b, cleared)

/-- The full line-clear pass (blocks after clearing, rows cleared), run with
sufficient fuel. -/
def clearFullRows (b : List Row) : List Row × Nat :=
  clearLoop (b.countP rowFull * (b.length + 1) + b.length + 1) b 0 0

/-- src/tetris.rs lines 252-256: `score += rows_cleared * 100` and, when any
row cleared, `score += (rows_cleared - 1) * 25`. -/
def scoreUpdate (s k : Nat) : Nat :=
  s + k * 100 + (if 0 < k then (k - 1) * 25 else 0)

/-- One fossilization write (src/tetris.rs lines 216-228):
`blocks[cy + y][cx + (x - 1)] := Some(color)`.  Negative indices panic in the
source via `try_into().unwrap()`; they are modelled as a no-op here and no
theorem evaluates such a write. -/
def writeCell (blocks : List Row) (blockY blockX : Int) (v : Nat) : List Row :=
  if 0 ≤ blockY ∧ 0 ≤ blockX then
    blocks.set blockY.toNat ((blocks.getD blockY.toNat []).set blockX.toNat (some v))
  else blocks

/-- The cell-writing loop of `Tetris::fossilize_current_piece`. -/
def writeShapeCells (blocks : List Row) (s : Shape) (x y : Nat) : List Row :=
  s.pixels.foldl
    (fun acc c => writeCell acc (c.2 + (y : Int)) (c.1 + ((x : Int) - 1)) s.color)
    blocks

/-- src/tetris.rs lines 214-262, `Tetris::fossilize_current_piece`: write the
active piece's cells, remember it as `previous_shape`, clear full rows, add
the score increment, and re-permit holding (also when no piece is active).
The `f32` `fall_speed` bump is outside the embedded state. -/
def fossilize (st : GameState) : GameState :=
  match st.shape with
  | none => { st with canHold := true }
  | some s =>
    let blocks1 := writeShapeCells st.blocks s st.x st.y
    let cleared := (clearFullRows blocks1).2
    { st with
        blocks := (clearFullRows blocks1).1
        previous := some s
        shape := none
        score := scoreUpdate st.score cleared
        canHold := true }

/-- src/tetris.rs lines 264-274, `Tetris::fall_until_hit`: move the anchor
down while the bounds check says the piece is not at the bottom, then step
back up once.  `fuel` bounds the source's unbounded `loop`; every concrete
evaluation below terminates well within the fuel supplied. -/
def fallUntilHit : Nat → GameState → GameState
  | 0, st => st
  | fuel + 1, st =>
    if (stateShapeInBounds st).2 then
      fallUntilHit fuel { st with y := st.y + 1 }
    else
      { st with y := st.y - 1 }

/-- The `match input` dispatch of `Tetris::update` (src/tetris.rs lines
292-393), one recognized character per tick; unrecognized characters fall to
the wildcard arm and change nothing.  The hard-drop arm runs `fall_until_hit`
with fuel 64, enough for every run from a coordinate the game can reach. -/
def dispatchInput (c : Char) (st : GameState) : GameState :=
  if c = 'q' then { st with running := false }
  else if c = 'a' then
    if 0 < st.x then
      let st' := { st with x := st.x - 1 }
      if (stateShapeInBounds st').1 then st' else st
    else st
  else if c = 'd' then
    let st' := { st with x := st.x + 1 }
    if (stateShapeInBounds st').1 then st' else st
  else if c = 's' then
    match st.shape with
    | none => st
    | some s =>
      let s' := rotateShape s true
      let w := shapeWithinBounds s' st.x st.y
      if !w.1 ∨ !w.2 then { st with shape := some (rotateShape s' false) }
      else { st with shape := some s' }
  else if c = 'w' then
    match st.shape with
    | none => st
    | some s =>
      let s' := rotateShape s false
      let w := shapeWithinBounds s' st.x st.y
      if !w.1 ∨ !w.2 then { st with shape := some (rotateShape s' true) }
      else { st with shape := some s' }
  else if c = 'z' then
    match st.shape with
    | none => st
    | some s =>
      let s' := rotateShape (rotateShape s true) true
      let w := shapeWithinBounds s' st.x st.y
      if !w.1 ∨ !w.2 then { st with shape := some (rotateShape s' false) }
      else { st with shape := some s' }
  else if c = 'x' then
    match st.shape with
    | none => st
    | some s =>
      let s' := rotateShape (rotateShape s false) false
      let w := shapeWithinBounds s' st.x st.y
      if !w.1 ∨ !w.2 then { st with shape := some (rotateShape s' true) }
      else { st with shape := some s' }
  else if c = 'h' then
    if st.canHold then
      { st with
          shape := st.held
          held := st.shape
          previous := st.shape
          x := PLAYER_STARTING_X
          y := PLAYER_STARTING_Y
          canHold := false }
    else st
  else if c = ' ' then
    fossilize (fallUntilHit 64 st)
  else st

/-- The ghost-piece section of `Tetris::render` (src/tetris.rs lines 409-425):
save `player_y`, run `fall_until_hit` on the real state to find the landing
row (used only for drawing), then restore `player_y`.  Parametric in the
fall fuel, so the preservation theorem covers runs of every length. -/
def renderGhost (fuel : Nat) (st : GameState) : GameState :=
  let savedY := st.y
  let st' := fallUntilHit fuel st
  { st' with y := savedY }

/-- src/tetris.rs lines 92-118, the linear-congruential `RandomGenerator`
(its seed field; the engine's parameters are `modulus = 101`,
`multiplier = 4`, `increment = 1`). -/
structure Rng where
  modulus : Nat
  multiplier : Nat
  increment : Nat
  seed : Nat
deriving DecidableEq

/-- `RandomGenerator::generate`: `(multiplier * seed + increment) % modulus`,
stored back into the seed. -/
def generate (r : Rng) : Nat × Rng :=
  let result := (r.multiplier * r.seed + r.increment) % r.modulus
  (result, { r with seed := result })

/-- The spawn loop of `Tetris::render` (src/tetris.rs lines 468-485): draw
`SHAPES[generate() % 7]` and accept it unless it equals the stored
`previous_shape`, in which case redraw.  `fuel` bounds the source's unbounded
`loop`; `none` means fuel ran out.  (`getD square` is never the default:
the index is always `< 7`.) -/
def spawnLoop : Nat → Rng → Option Shape → Option (Shape × Rng)
  | 0, _, _ => none
  | fuel + 1, rng, prev =>
    let g := generate rng
    let generatedShape := shapesList.getD (g.1 % 7) square
    match prev with
    | some p =>
      if generatedShape ≠ p then some (generatedShape, g.2)
      else spawnLoop fuel g.2 prev
    | none => some (generatedShape, g.2)

/-- The characters recognized by the `Tetris::update` dispatch. -/
def recognizedInputs : List Char := ['q', 'a', 'd', 's', 'w', 'z', 'x', 'h', ' ']

/-- A state with the vertical STRAIGHT piece anchored at `(5, 2)` on an empty
board: its double rotation puts a cell on row 0, so the `'z'` arm rejects it. -/
def stStraightZ : GameState :=
  ⟨emptyBoard, 5, 2, 0, 0, some straight, none, none, true, true⟩

/-- The TEE piece rotated once left: same kind (color) as `tee`, different
offset list. -/
def rotTee : Shape := rotateShape tee true

/-- A state with the TEE piece anchored mid-board, used to fossilize a rotated
TEE. -/
def stTeeMid : GameState :=
  ⟨emptyBoard, 5, 5, 0, 0, some tee, none, none, true, true⟩

/-- An otherwise-empty board with one fossilized cell at row 5, column 5
(board coordinates `x = 6`, `y = 5`). -/
def overlapBoard : List Row := emptyBoard.set 5 (emptyRow.set 5 (some 31))

/-- `stTeeMid` over `overlapBoard`: rotating the TEE left moves a cell onto
the fossilized cell. -/
def overlapState : GameState :=
  ⟨overlapBoard, 5, 5, 0, 0, some tee, none, none, true, true⟩

/-- A state with the chiral LEFT_SKEWED piece mid-board: neither of its flips
coincides with any rotation of it, so flip outcomes are distinguishable. -/
def stSkew : GameState :=
  ⟨emptyBoard, 5, 5, 0, 0, some leftSkewed, none, none, true, true⟩

/-- A fully occupied row. -/
def fullRow : Row := List.replicate 10 (some 31)

/-- A 20-row board whose bottom row is full. -/
def oneFullRowBoard : List Row := List.replicate 19 emptyRow ++ [fullRow]

/-- Claim C7: rotating the offset set once with one boolean direction and then
once with the opposite direction restores the original offset set exactly,
for every shape (in particular every piece kind in every orientation). -/
theorem rotate_inverse_composition (s : Shape) (b : Bool) :
    rotateShape (rotateShape s b) (!b) = s := by
  cases s with
  | mk ps color =>
    simp only [rotateShape, rotatePixels, List.map_map, Shape.mk.injEq, and_true]
    induction ps with
    | nil => rfl
    | cons c rest ih =>
      cases b <;> simp_all

/-- `fall_until_hit` mutates only `player_y`: the run equals the input state
with just the `y` field replaced. -/
theorem fallUntilHit_eq (fuel : Nat) :
    ∀ st : GameState, fallUntilHit fuel st = { st with y := (fallUntilHit fuel st).y } := by
  induction fuel with
  | zero => intro st; rfl
  | succ fuel ih =>
    intro st
    by_cases h : (stateShapeInBounds st).2 = true
    · simp only [fallUntilHit, h, if_true]
      exact ih _
    · simp [fallUntilHit, h]

/-- Claim C6: the ghost-piece (hard-drop preview) computation in `render`
saves and restores the anchor row; by the time that section returns, the
fall timer, score and real anchor `(x, y)` are all unchanged, for every
engine state and every length of the simulated fall. -/
theorem ghost_render_preserves_state (fuel : Nat) (st : GameState) :
    (renderGhost fuel st).fallTimer = st.fallTimer ∧
      (renderGhost fuel st).score = st.score ∧
      (renderGhost fuel st).x = st.x ∧
      (renderGhost fuel st).y = st.y := by
  simp only [renderGhost]
  rw [fallUntilHit_eq fuel st]
  simp

/-- Claim C1 (evaluation at the failing input): on input `'z'` with the
vertical STRAIGHT piece at anchor `(5, 2)` on an empty board, the double
rotation is rejected but reverted by only a single opposite rotation, leaving
the piece horizontal — the offset set is not restored. -/
theorem z_input_single_revert :
    (dispatchInput 'z' stStraightZ).shape = some ⟨[(1, 0), (0, 0), (-1, 0), (-2, 0)], 36⟩ ∧
      (dispatchInput 'z' stStraightZ).shape ≠ stStraightZ.shape := by
  exact ⟨by decide, by decide⟩

/-- Claim C2 (counterexample): with the previously fossilized shape stored as
the rotated TEE, a spawn draw of the canonical TEE passes the inequality test
(the comparison is on full shape values, not kinds), so two consecutive spawns
share a kind.  The last two conjuncts show the rotated TEE is the value the
engine stores: `'s'` rotates TEE into it and fossilization records it. -/
theorem spawn_same_kind_after_rotated_fossilize :
    spawnLoop 1 ⟨101, 4, 1, 76⟩ (some rotTee) = some (tee, ⟨101, 4, 1, 2⟩) ∧
      tee.color = rotTee.color ∧
      tee ≠ rotTee ∧
      (dispatchInput 's' stTeeMid).shape = some rotTee ∧
      (fossilize (dispatchInput 's' stTeeMid)).previous = some rotTee := by
  refine ⟨by decide, by decide, by decide, by decide, by decide⟩

/-- Claim C3 (counterexample): the SQUARE anchored at `(9, 5)` on an empty
board has a cell at `x = GAME_WIDTH = 10`, yet the check reports
`(true, true)`; and the horizontal STRAIGHT anchored at `(2, 0)` has a cell at
`x = 0`, yet `within_x` stays `true` (its row-0 cells skip the `x` test). -/
theorem bounds_check_edge_cells_counterexample :
    isShapeInBounds square 9 5 emptyBoard = (true, true) ∧
      ((1, 0) ∈ square.pixels ∧ ((1 : Int) + 9 = GAME_WIDTH)) ∧
      isShapeInBounds (rotateShape straight true) 2 0 emptyBoard = (true, false) ∧
      ((-2, 0) ∈ (rotateShape straight true).pixels ∧ ((-2 : Int) + 2 = 0)) := by
  refine ⟨by decide, ⟨by decide, by decide⟩, by decide, ⟨by decide, by decide⟩⟩

/-- Claim C2 (amended): whatever the spawn loop returns differs from the
stored previous shape as a full shape value (offset list plus color) — but
only as a full value, not necessarily in kind. -/
theorem spawn_differs_from_previous_shape :
    ∀ (fuel : Nat) (rng : Rng) (p s : Shape) (rng' : Rng),
      spawnLoop fuel rng (some p) = some (s, rng') → s ≠ p := by
  intro fuel
  induction fuel with
  | zero => intro rng p s rng' h; simp [spawnLoop] at h
  | succ fuel ih =>
    intro rng p s rng' h
    simp only [spawnLoop] at h
    split_ifs at h with hcond
    · simp only [Option.some.injEq, Prod.mk.injEq] at h
      obtain ⟨h1, -⟩ := h
      exact h1 ▸ hcond
    · exact ih _ p s rng' h

theorem spawn_differs_from_previous_shape_witness :
    spawnLoop 1 ⟨101, 4, 1, 0⟩ (some square) = some (straight, ⟨101, 4, 1, 1⟩) ∧
      straight ≠ square :=
  ⟨by decide,
    spawn_differs_from_previous_shape 1 ⟨101, 4, 1, 0⟩ square straight ⟨101, 4, 1, 1⟩ (by decide)⟩

/-- Claim C5: a fossilization whose line-clear pass removes `k` rows adds
exactly `100 k + 25 · max(0, k − 1)` to the score (`k - 1` is truncated
subtraction, hence the `max`), leaves it unchanged for `k = 0`, and never
decreases it. -/
theorem fossilize_score_increment (s : Nat) (b : List Row) (k : Nat)
    (_hk : (clearFullRows b).2 = k) :
    scoreUpdate s k = s + (100 * k + 25 * (k - 1)) ∧
      (k = 0 → scoreUpdate s k = s) ∧
      s ≤ scoreUpdate s k := by
  clear _hk
  refine ⟨?_, ?_, ?_⟩
  · unfold scoreUpdate; split <;> omega
  · rintro rfl; simp [scoreUpdate]
  · unfold scoreUpdate; split <;> omega

theorem fossilize_score_increment_witness :
    (clearFullRows oneFullRowBoard).2 = 1 ∧
      (scoreUpdate 7 1 = 7 + (100 * 1 + 25 * (1 - 1)) ∧
        (1 = 0 → scoreUpdate 7 1 = 7) ∧ 7 ≤ scoreUpdate 7 1) :=
  ⟨by decide, fossilize_score_increment 7 oneFullRowBoard 1 (by decide)⟩

/-- Claim C8 (counterexample): at a state holding the chiral LEFT_SKEWED piece
mid-board on an empty board, no recognized input character leaves the active
piece flipped horizontally or vertically — the dispatch has no flip arm at
all, so no character applies a flip unconditionally. -/
theorem no_input_applies_flip_counterexample :
    ((dispatchInput 'q' stSkew).shape ≠ some (flipShape leftSkewed true) ∧
        (dispatchInput 'q' stSkew).shape ≠ some (flipShape leftSkewed false)) ∧
      ((dispatchInput 'a' stSkew).shape ≠ some (flipShape leftSkewed true) ∧
        (dispatchInput 'a' stSkew).shape ≠ some (flipShape leftSkewed false)) ∧
      ((dispatchInput 'd' stSkew).shape ≠ some (flipShape leftSkewed true) ∧
        (dispatchInput 'd' stSkew).shape ≠ some (flipShape leftSkewed false)) ∧
      ((dispatchInput 's' stSkew).shape ≠ some (flipShape leftSkewed true) ∧
        (dispatchInput 's' stSkew).shape ≠ some (flipShape leftSkewed false)) ∧
      ((dispatchInput 'w' stSkew).shape ≠ some (flipShape leftSkewed true) ∧
        (dispatchInput 'w' stSkew).shape ≠ some (flipShape leftSkewed false)) ∧
      ((dispatchInput 'z' stSkew).shape ≠ some (flipShape leftSkewed true) ∧
        (dispatchInput 'z' stSkew).shape ≠ some (flipShape leftSkewed false)) ∧
      ((dispatchInput 'x' stSkew).shape ≠ some (flipShape leftSkewed true) ∧
        (dispatchInput 'x' stSkew).shape ≠ some (flipShape leftSkewed false)) ∧
      ((dispatchInput 'h' stSkew).shape ≠ some (flipShape leftSkewed true) ∧
        (dispatchInput 'h' stSkew).shape ≠ some (flipShape leftSkewed false)) ∧
      ((dispatchInput ' ' stSkew).shape ≠ some (flipShape leftSkewed true) ∧
        (dispatchInput ' ' stSkew).shape ≠ some (flipShape leftSkewed false)) := by
  decide

/-- Claim C8 (amended): no recognized input character applies a flip to the
active piece — `Shape::flip` is never invoked by the per-tick dispatch, as
witnessed at a state where flip outcomes differ from every dispatch outcome. -/
theorem no_recognized_input_flips :
    ∀ c : Char, c ∈ recognizedInputs →
      (dispatchInput c stSkew).shape ≠ some (flipShape leftSkewed true) ∧
        (dispatchInput c stSkew).shape ≠ some (flipShape leftSkewed false) := by
  intro c hc
  fin_cases hc <;> exact ⟨by decide, by decide⟩

theorem no_recognized_input_flips_witness :
    'z' ∈ recognizedInputs ∧
      ((dispatchInput 'z' stSkew).shape ≠ some (flipShape leftSkewed true) ∧
        (dispatchInput 'z' stSkew).shape ≠ some (flipShape leftSkewed false)) :=
  ⟨by decide, no_recognized_input_flips 'z' (by decide)⟩

/-- Claim C9: the accept/revert decision of the four rotation inputs reads
only the piece's offsets and the anchor (`Shape::is_within_bounds`), never the
board, so dispatching the same rotation over any two board contents yields the
same active shape; consequently a rotation is accepted even when it leaves the
piece overlapping a fossilized cell, as the last two conjuncts witness
(the full collision check rejects the post-rotation placement the rotation
arm just accepted). -/
theorem rotation_decision_ignores_board :
    ∀ c : Char, (c = 's' ∨ c = 'w' ∨ c = 'z' ∨ c = 'x') →
      (∀ (sh hd pv : Option Shape) (x y ft sc : Nat) (ch rn : Bool) (b₁ b₂ : List Row),
          (dispatchInput c ⟨b₁, x, y, ft, sc, sh, hd, pv, ch, rn⟩).shape =
            (dispatchInput c ⟨b₂, x, y, ft, sc, sh, hd, pv, ch, rn⟩).shape) ∧
        stateShapeInBounds (dispatchInput 's' overlapState) = (false, false) ∧
        (dispatchInput 's' overlapState).shape ≠ overlapState.shape := by
  intro c hc
  refine ⟨?_, by decide, by decide⟩
  rcases hc with rfl | rfl | rfl | rfl <;>
    intro sh hd pv x y ft sc ch rn b₁ b₂ <;> cases sh <;>
      simp [dispatchInput, apply_ite GameState.shape]

theorem rotation_decision_ignores_board_witness :
    ('s' = 's' ∨ 's' = 'w' ∨ 's' = 'z' ∨ 's' = 'x') ∧
      ((dispatchInput 's' ⟨emptyBoard, 5, 5, 0, 0, some tee, none, none, true, true⟩).shape =
        (dispatchInput 's' ⟨overlapBoard, 5, 5, 0, 0, some tee, none, none, true, true⟩).shape) :=
  ⟨Or.inl rfl,
    (rotation_decision_ignores_board 's' (Or.inl rfl)).1
      (some tee) none none 5 5 0 0 true true emptyBoard overlapBoard⟩

/-- An in-range occupancy read never takes the panic branch. -/
theorem lookupCell_isSome (blocks : List Row) (blockY blockX : Int)
    (h1 : 0 ≤ blockY) (h2 : blockY.toNat < blocks.length)
    (h3 : 0 ≤ blockX - 1) (h4 : (blockX - 1).toNat < (blocks.getD blockY.toNat []).length) :
    (lookupCell blocks blockY blockX).isSome = true := by
  simp only [lookupCell]
  rw [if_pos ⟨h1, h2⟩, if_pos ⟨h3, h4⟩]
  rfl

/-- On a 20-row board of 10-cell rows, the bounds-check fold never reaches an
out-of-range occupancy read, whatever the cell list and accumulator. -/
theorem boundsAux_isSome (blocks : List Row) (hlen : blocks.length = 20)
    (hw : ∀ r ∈ blocks, r.length = 10) (px py : Nat) :
    ∀ (cells : List (Int × Int)) (acc : Bool × Bool),
      (boundsAux blocks px py cells acc).isSome = true := by
  intro cells
  induction cells with
  | nil => intro acc; rfl
  | cons c rest ih =>
    intro acc
    simp only [boundsAux]
    by_cases hy : c.2 + (py : Int) ≥ GAME_HEIGHT ∨ c.2 + (py : Int) ≤ 0
    · rw [if_pos hy]; exact ih _
    · rw [if_neg hy]
      by_cases hx : c.1 + (px : Int) > GAME_WIDTH ∨ c.1 + (px : Int) ≤ 0
      · rw [if_pos hx]; exact ih _
      · rw [if_neg hx]
        push_neg at hy hx
        simp only [GAME_HEIGHT, GAME_WIDTH] at hy hx
        have h2 : (c.2 + (py : Int)).toNat < blocks.length := by rw [hlen]; omega
        have hrowmem : blocks.getD (c.2 + (py : Int)).toNat [] ∈ blocks := by
          rw [List.getD_eq_getElem?_getD, List.getElem?_eq_getElem h2]
          exact List.getElem_mem h2
        have h4 : (c.1 + (px : Int) - 1).toNat <
            (blocks.getD (c.2 + (py : Int)).toNat []).length := by
          rw [hw _ hrowmem]; omega
        have hls := lookupCell_isSome blocks (c.2 + (py : Int)) (c.1 + (px : Int))
          (by omega) h2 (by omega) h4
        obtain ⟨cell, hcell⟩ := Option.isSome_iff_exists.mp hls
        rw [hcell]
        exact ih _

/-- Claim C10: for every shape and anchor over a blocks grid of exactly 20
rows of 10 cells, the bounds/collision check performs only in-range occupancy
lookups — the per-cell `y` and `x` guards run first, so the indexing panic
branch is unreachable. -/
theorem occupancy_lookup_in_range (s : Shape) (px py : Nat) (blocks : List Row)
    (hlen : blocks.length = 20) (hw : ∀ r ∈ blocks, r.length = 10) :
    (isShapeInBoundsOpt s px py blocks).isSome = true :=
  boundsAux_isSome blocks hlen hw px py s.pixels (true, true)

theorem occupancy_lookup_in_range_witness :
    emptyBoard.length = 20 ∧ (∀ r ∈ emptyBoard, r.length = 10) ∧
      (isShapeInBoundsOpt square 5 5 emptyBoard).isSome = true :=
  ⟨by decide, by decide,
    occupancy_lookup_in_range square 5 5 emptyBoard (by decide) (by decide)⟩


theorem rowFull_emptyRow : rowFull emptyRow = false := by decide

theorem filterNotFull_length (b : List Row) :
    (b.filter (fun r => !rowFull r)).length + b.countP rowFull = b.length := by
  induction b with
  | nil => simp
  | cons r rest ih =>
    by_cases h : rowFull r <;>
      simp [List.filter_cons, List.countP_cons, h] <;> omega

theorem clearLoop_eq :
    ∀ (fuel : Nat) (b : List Row) (i cleared : Nat),
      b.countP rowFull * (b.length + 1) + (b.length - i) < fuel →
      (∀ r ∈ b.take i, rowFull r = false) →
      clearLoop fuel b i cleared =
        (List.replicate (b.countP rowFull) emptyRow ++ b.filter (fun r => !rowFull r),
          cleared + b.countP rowFull) := by
  intro fuel
  induction fuel with
  | zero => intro b i cleared hfuel _; exact absurd hfuel (Nat.not_lt_zero _)
  | succ fuel ih =>
    intro b i cleared hfuel hclean
    by_cases h : i < b.length
    · simp only [clearLoop, dif_pos h]
      by_cases hg : rowFull b[i] = true
      · rw [if_pos hg]
        have hsplit : b = b.take i ++ b[i] :: b.drop (i + 1) := by
          conv_lhs => rw [← List.take_append_drop i b]
          rw [List.getElem_cons_drop b i h]
        have herase : b.eraseIdx i = b.take i ++ b.drop (i + 1) :=
          List.eraseIdx_eq_take_drop_succ b i
        have hlt : (b.take i).length = i := by
          rw [List.length_take]; exact Nat.min_eq_left h.le
        have hcb : b.countP rowFull =
            (b.take i).countP rowFull + (b.drop (i + 1)).countP rowFull + 1 := by
          conv_lhs => rw [hsplit]
          rw [List.countP_append, List.countP_cons]
          simp [hg]; omega
        have hcb' : (emptyRow :: (b.take i ++ b.drop (i + 1))).countP rowFull =
            (b.take i).countP rowFull + (b.drop (i + 1)).countP rowFull := by
          rw [List.countP_cons, List.countP_append]
          simp [rowFull_emptyRow]
        have hlb : b.length = (b.take i).length + 1 + (b.drop (i + 1)).length := by
          conv_lhs => rw [hsplit]
          simp [List.length_append]; omega
        have hlenb' : (emptyRow :: (b.take i ++ b.drop (i + 1))).length = b.length := by
          simp [List.length_append]; omega
        have hfuel' : (emptyRow :: (b.take i ++ b.drop (i + 1))).countP rowFull *
              ((emptyRow :: (b.take i ++ b.drop (i + 1))).length + 1) +
              ((emptyRow :: (b.take i ++ b.drop (i + 1))).length - i) < fuel := by
          rw [hcb', hlenb']
          have hexp : ((b.take i).countP rowFull + (b.drop (i + 1)).countP rowFull + 1) *
                (b.length + 1) =
              ((b.take i).countP rowFull + (b.drop (i + 1)).countP rowFull) * (b.length + 1) +
                (b.length + 1) := by ring
          rw [hcb] at hfuel
          omega
        have hclean' : ∀ r ∈ (emptyRow :: (b.take i ++ b.drop (i + 1))).take i,
            rowFull r = false := by
          intro r hr
          have hstep : (emptyRow :: (b.take i ++ b.drop (i + 1))).take i =
              (emptyRow :: b.take i).take i := by
            have hassoc : emptyRow :: (b.take i ++ b.drop (i + 1)) =
                (emptyRow :: b.take i) ++ b.drop (i + 1) := rfl
            rw [hassoc, List.take_append_of_le_length]
            simp [hlt]
          rw [hstep] at hr
          have hsub := List.take_subset i (emptyRow :: b.take i) hr
          rcases List.mem_cons.mp hsub with rfl | hmem
          · exact rowFull_emptyRow
          · exact hclean r hmem
        rw [herase, ih _ i (cleared + 1) hfuel' hclean']
        have hfb' : (emptyRow :: (b.take i ++ b.drop (i + 1))).filter (fun r => !rowFull r) =
            emptyRow :: (b.take i ++ (b.drop (i + 1)).filter (fun r => !rowFull r)) := by
          rw [List.filter_cons, List.filter_append]
          simp [rowFull_emptyRow]
          exact hclean
        have hfb : b.filter (fun r => !rowFull r) =
            b.take i ++ (b.drop (i + 1)).filter (fun r => !rowFull r) := by
          conv_lhs => rw [hsplit]
          rw [List.filter_append, List.filter_cons]
          simp [hg]
          exact hclean
        rw [hfb', hcb', hfb, hcb]
        refine Prod.ext ?_ ?_
        · show List.replicate ((b.take i).countP rowFull + (b.drop (i + 1)).countP rowFull)
              emptyRow ++
              (emptyRow :: (b.take i ++ (b.drop (i + 1)).filter (fun r => !rowFull r))) =
            List.replicate ((b.take i).countP rowFull + (b.drop (i + 1)).countP rowFull + 1)
              emptyRow ++
              (b.take i ++ (b.drop (i + 1)).filter (fun r => !rowFull r))
          rw [List.replicate_succ']
          simp
        · show (cleared + 1) + ((b.take i).countP rowFull + (b.drop (i + 1)).countP rowFull) =
            cleared + ((b.take i).countP rowFull + (b.drop (i + 1)).countP rowFull + 1)
          omega
      · rw [if_neg hg]
        have hfuel' : b.countP rowFull * (b.length + 1) + (b.length - (i + 1)) < fuel := by
          omega
        have hclean' : ∀ r ∈ b.take (i + 1), rowFull r = false := by
          intro r hr
          rw [List.take_succ, List.getElem?_eq_getElem h] at hr
          rcases List.mem_append.mp hr with hmem | hlast
          · exact hclean r hmem
          · have : r = b[i] := by simpa using hlast
            rw [this]
            exact Bool.eq_false_iff.mpr hg
        exact ih b (i + 1) cleared hfuel' hclean'
    · simp only [clearLoop, dif_neg h]
      have hcleanAll : ∀ r ∈ b, rowFull r = false := by
        intro r hr
        exact hclean r (by rw [List.take_of_length_le (le_of_not_lt h)]; exact hr)
      have hc0 : b.countP rowFull = 0 :=
        List.countP_eq_zero.mpr (fun r hr => by simp [hcleanAll r hr])
      have hfil : b.filter (fun r => !rowFull r) = b :=
        List.filter_eq_self.mpr (fun r hr => by simp [hcleanAll r hr])
      rw [hc0, hfil]
      simp

theorem clearFullRows_eq (b : List Row) :
    clearFullRows b =
      (List.replicate (b.countP rowFull) emptyRow ++ b.filter (fun r => !rowFull r),
        b.countP rowFull) := by
  have h := clearLoop_eq (b.countP rowFull * (b.length + 1) + b.length + 1) b 0 0
    (by omega) (by simp)
  simpa [clearFullRows] using h


/-- Claim C4: on a board of exactly 20 rows of 10 cells containing exactly
`k` full rows, the line-clear pass removes exactly the full rows (the
remaining rows are the in-order non-full rows), inserts `k` fresh empty rows
at the top, reports `k` rows cleared, and leaves exactly 20 rows of 10
cells. -/
theorem clear_full_rows_spec (b : List Row) (k : Nat)
    (hlen : b.length = 20) (hw : ∀ r ∈ b, r.length = 10)
    (hk : b.countP rowFull = k) :
    clearFullRows b =
        (List.replicate k emptyRow ++ b.filter (fun r => !rowFull r), k) ∧
      (clearFullRows b).1.length = 20 ∧
      (∀ r ∈ (clearFullRows b).1, r.length = 10) := by
  subst hk
  refine ⟨clearFullRows_eq b, ?_, ?_⟩
  · rw [clearFullRows_eq]
    have hfl := filterNotFull_length b
    have hcl := List.countP_le_length rowFull (l := b)
    simp only [List.length_append, List.length_replicate]
    omega
  · rw [clearFullRows_eq]
    intro r hr
    rcases List.mem_append.mp hr with h1 | h2
    · rw [List.eq_of_mem_replicate h1]; rfl
    · exact hw r (List.mem_of_mem_filter h2)

theorem clear_full_rows_spec_witness :
    (oneFullRowBoard.length = 20 ∧ (∀ r ∈ oneFullRowBoard, r.length = 10) ∧
        oneFullRowBoard.countP rowFull = 1) ∧
      (clearFullRows oneFullRowBoard =
          (List.replicate 1 emptyRow ++ oneFullRowBoard.filter (fun r => !rowFull r), 1) ∧
        (clearFullRows oneFullRowBoard).1.length = 20 ∧
        (∀ r ∈ (clearFullRows oneFullRowBoard).1, r.length = 10)) :=
  ⟨⟨by decide, by decide, by decide⟩,
    clear_full_rows_spec oneFullRowBoard 1 (by decide) (by decide) (by decide)⟩


theorem emptyRow_getD (m : Nat) : emptyRow.getD m none = none := by
  rw [List.getD_eq_getElem?_getD, emptyRow, List.getElem?_replicate]
  split <;> rfl

theorem emptyBoard_getD (n : Nat) (hn : n < 20) : emptyBoard.getD n [] = emptyRow := by
  rw [List.getD_eq_getElem?_getD, emptyBoard, List.getElem?_replicate, if_pos hn]
  rfl

theorem lookupCell_empty (blockY blockX : Int)
    (hy : 0 < blockY ∧ blockY < 20) (hx : 0 < blockX ∧ blockX ≤ 10) :
    lookupCell emptyBoard blockY blockX = some none := by
  have h2 : blockY.toNat < emptyBoard.length := by
    simp [emptyBoard]; omega
  rw [lookupCell, if_pos ⟨by omega, h2⟩]
  have hrow : emptyBoard.getD blockY.toNat [] = emptyRow :=
    emptyBoard_getD blockY.toNat (by simpa [emptyBoard] using h2)
  rw [hrow]
  have h4 : (blockX - 1).toNat < emptyRow.length := by
    simp [emptyRow]; omega
  rw [if_pos ⟨by omega, h4⟩, emptyRow_getD]

theorem boundsAux_empty (px py : Nat) :
    ∀ (cells : List (Int × Int)) (acc : Bool × Bool),
      boundsAux emptyBoard px py cells acc =
        some (acc.1 && cells.all (fun c =>
                decide ((0 < c.2 + (py : Int) ∧ c.2 + (py : Int) < 20) →
                  (0 < c.1 + (px : Int) ∧ c.1 + (px : Int) ≤ 10))),
              acc.2 && cells.all (fun c =>
                decide (0 < c.2 + (py : Int) ∧ c.2 + (py : Int) < 20))) := by
  intro cells
  induction cells with
  | nil => intro acc; simp [boundsAux]
  | cons c rest ih =>
    intro acc
    simp only [boundsAux]
    by_cases hy : c.2 + (py : Int) ≥ GAME_HEIGHT ∨ c.2 + (py : Int) ≤ 0
    · rw [if_pos hy, ih]
      have hyP : ¬(0 < c.2 + (py : Int) ∧ c.2 + (py : Int) < 20) := by
        simp only [GAME_HEIGHT] at hy; omega
      have h1 : decide ((0 < c.2 + (py : Int) ∧ c.2 + (py : Int) < 20) →
          (0 < c.1 + (px : Int) ∧ c.1 + (px : Int) ≤ 10)) = true :=
        decide_eq_true (fun hh => absurd hh hyP)
      have h2 : decide (0 < c.2 + (py : Int) ∧ c.2 + (py : Int) < 20) = false :=
        decide_eq_false hyP
      simp only [List.all_cons, h1, h2, Bool.true_and, Bool.false_and, Bool.and_false]
    · rw [if_neg hy]
      have hyP : 0 < c.2 + (py : Int) ∧ c.2 + (py : Int) < 20 := by
        simp only [GAME_HEIGHT] at hy; push_neg at hy; omega
      have h2 : decide (0 < c.2 + (py : Int) ∧ c.2 + (py : Int) < 20) = true :=
        decide_eq_true hyP
      by_cases hx : c.1 + (px : Int) > GAME_WIDTH ∨ c.1 + (px : Int) ≤ 0
      · rw [if_pos hx, ih]
        have hxP : ¬(0 < c.1 + (px : Int) ∧ c.1 + (px : Int) ≤ 10) := by
          simp only [GAME_WIDTH] at hx; omega
        have h1 : decide ((0 < c.2 + (py : Int) ∧ c.2 + (py : Int) < 20) →
            (0 < c.1 + (px : Int) ∧ c.1 + (px : Int) ≤ 10)) = false :=
          decide_eq_false (fun himp => absurd (himp hyP) hxP)
        simp only [List.all_cons, h1, h2, Bool.true_and, Bool.false_and, Bool.and_false]
      · have hxP : 0 < c.1 + (px : Int) ∧ c.1 + (px : Int) ≤ 10 := by
          simp only [GAME_WIDTH] at hx; push_neg at hx; omega
        have h1 : decide ((0 < c.2 + (py : Int) ∧ c.2 + (py : Int) < 20) →
            (0 < c.1 + (px : Int) ∧ c.1 + (px : Int) ≤ 10)) = true :=
          decide_eq_true (fun _ => hxP)
        rw [if_neg hx, lookupCell_empty _ _ hyP hxP]
        simp only [Option.isSome_none, Bool.false_eq_true, if_false]
        rw [ih]
        simp only [List.all_cons, h1, h2, Bool.true_and]


/-- Claim C3 (amended): on an empty board, `within_y` is `true` exactly when
every cell has `0 < y < GAME_HEIGHT`, and `within_x` is `true` exactly when
every cell whose `y` is in that range has `0 < x ≤ GAME_WIDTH` — so a cell at
`x = GAME_WIDTH` is in bounds, only `x ≤ 0` or `x > GAME_WIDTH` clears
`within_x`, and a cell whose `y` is out of range never affects `within_x`. -/
theorem bounds_check_empty_board (s : Shape) (px py : Nat) :
    ((isShapeInBounds s px py emptyBoard).2 = true ↔
        ∀ c ∈ s.pixels, 0 < c.2 + (py : Int) ∧ c.2 + (py : Int) < GAME_HEIGHT) ∧
      ((isShapeInBounds s px py emptyBoard).1 = true ↔
        ∀ c ∈ s.pixels, (0 < c.2 + (py : Int) ∧ c.2 + (py : Int) < GAME_HEIGHT) →
          (0 < c.1 + (px : Int) ∧ c.1 + (px : Int) ≤ GAME_WIDTH)) := by
  have h := boundsAux_empty px py s.pixels (true, true)
  constructor
  · simp only [isShapeInBounds, isShapeInBoundsOpt, h, Option.getD_some, Bool.true_and,
      GAME_HEIGHT, List.all_eq_true, decide_eq_true_eq]
  · simp only [isShapeInBounds, isShapeInBoundsOpt, h, Option.getD_some, Bool.true_and,
      GAME_HEIGHT, GAME_WIDTH, List.all_eq_true, decide_eq_true_eq]

end TetrisCli
